import Mathlib

/-!
# A shallow embedding of `alloc.c` (sbrk-based malloc / calloc / realloc / free)

The C file keeps three globals (`head`, `tail`, `free_header`) and stores its block
descriptors (`header_t`) inside the heap itself.  The embedding keeps that picture:

* memory is a total map from byte addresses to byte values;
* a descriptor at address `h` is the 24 bytes `[h, h+24)` under the LP64 data model
  (`size_t size` at offset 0, `unsigned is_free` at offset 8, `header *next` at offset 16;
  the union with `char[16]` does not enlarge it);
* `size_t` and pointer arithmetic is taken modulo `2^64`, `int` is 32 bits wide;
* `sbrk` is the only operating-system primitive.  Its behaviour is a parameter of the
  state: the break may move inside `[base, limit]`, any other request fails with
  `(void*)-1` and leaves the break where it was;
* the three `while`/`for` loops take a fuel argument and return `none` when it runs out.
-/

namespace Alloc

/-! ## Memory -/

/-- Byte-addressed memory. -/
abbrev Mem := Nat → Nat

/-- Little-endian read of `k` bytes starting at address `a`. -/
def load (m : Mem) (a : Nat) : Nat → Nat
  | 0 => 0
  | k + 1 => m a % 256 + 256 * load m (a + 1) k

/-- Little-endian write of the low `n` bytes of `v` at address `a`. -/
def store (m : Mem) (a n v : Nat) : Mem :=
  fun x => if a ≤ x ∧ x < a + n then v / 256 ^ (x - a) % 256 else m x

/-- Library call `memcpy(dst, src, n)` for non-overlapping ranges. -/
def memcpy (m : Mem) (dst src n : Nat) : Mem :=
  fun x => if dst ≤ x ∧ x < dst + n then m (src + (x - dst)) else m x

/-- Library call `memset(dst, c, n)`. -/
def memset (m : Mem) (dst c n : Nat) : Mem :=
  fun x => if dst ≤ x ∧ x < dst + n then c % 256 else m x

/-! ## Block descriptors -/

/-- The value of `sizeof(header_t)` under LP64. -/
def HDR : Nat := 24

/-- The null pointer. -/
def NULL : Nat := 0

/-- The value `(void*)-1` that `sbrk` returns on failure. -/
def SBRK_FAIL : Nat := 2 ^ 64 - 1

/-- Field read `h->s.size`. -/
def get_size (m : Mem) (h : Nat) : Nat := load m h 8

/-- Field read `h->s.is_free`. -/
def get_is_free (m : Mem) (h : Nat) : Nat := load m (h + 8) 4

/-- Field read `h->s.next`. -/
def get_next (m : Mem) (h : Nat) : Nat := load m (h + 16) 8

/-- Field write `h->s.size = v`. -/
def set_size (m : Mem) (h v : Nat) : Mem := store m h 8 v

/-- Field write `h->s.is_free = v`. -/
def set_is_free (m : Mem) (h v : Nat) : Mem := store m (h + 8) 4 v

/-- Field write `h->s.next = v`. -/
def set_next (m : Mem) (h v : Nat) : Mem := store m (h + 16) 8 v

/-! ## Allocator state -/

/-- The globals of `alloc.c`, the heap memory, the program break, and the two bounds
that decide when `sbrk` fails. -/
structure State where
  mem : Mem
  brk : Nat
  head : Nat
  tail : Nat
  free_header : Nat
  base : Nat
  limit : Nat

/-- The allocator before its first call: all three globals null, empty heap. -/
def init (base limit : Nat) (m : Mem) : State :=
  { mem := m, brk := base, head := NULL, tail := NULL, free_header := NULL,
    base := base, limit := limit }

/-- The primitive `sbrk(inc)`: `inc` is converted to `intptr_t`, so values from `2^63` on
lower the break by `2^64 - inc`.  Returns the state and the previous break, or
`SBRK_FAIL` with the break unchanged. -/
def sbrk (s : State) (inc : Nat) : State × Nat :=
  if inc < 2 ^ 63 then
    if s.brk + inc ≤ s.limit then ({ s with brk := s.brk + inc }, s.brk)
    else (s, SBRK_FAIL)
  else
    if s.base + (2 ^ 64 - inc) ≤ s.brk then ({ s with brk := s.brk - (2 ^ 64 - inc) }, s.brk)
    else (s, SBRK_FAIL)

/-! ## The free list: split, remove, first-fit search -/

/-- Function `split_block(curr, size)`, statement by statement. -/
def split_block (s : State) (curr size : Nat) : State :=
  let new_block := (curr + HDR + size) % 2 ^ 64
  let m1 := set_size s.mem new_block
    ((get_size s.mem curr + (2 ^ 64 - HDR) + (2 ^ 64 - size % 2 ^ 64)) % 2 ^ 64)
  let m2 := set_is_free m1 new_block 1
  let m3 := set_next m2 new_block (get_next m2 curr)
  let m4 := set_size m3 curr size
  let m5 := set_next m4 curr new_block
  { s with mem := m5 }

/-- Function `free_list_remove(curr, prev)`. -/
def free_list_remove (s : State) (curr prev : Nat) : State :=
  if prev ≠ NULL then { s with mem := set_next s.mem prev (get_next s.mem curr) }
  else { s with free_header := get_next s.mem curr }

/-- Conversion of a `size_t` value to `int`: the low 32 bits, read as two's complement. -/
def to_int (x : Nat) : Int :=
  if x % 2 ^ 32 < 2 ^ 31 then (x % 2 ^ 32 : Nat) else (x % 2 ^ 32 : Nat) - 2 ^ 32

/-- The library function `abs` on `int`; `abs(INT_MIN)` is modelled as `INT_MIN`, the
result of two's-complement negation. -/
def c_abs (v : Int) : Int :=
  if v = -(2 ^ 31) then v else if v < 0 then -v else v

/-- The loop of `get_free_block`, started at `curr` with predecessor `prev`. -/
def get_free_block_loop (size : Nat) : Nat → State → Nat → Nat → Option (State × Nat)
  | 0, s, curr, _ => if curr = NULL then some (s, NULL) else none
  | fuel + 1, s, curr, prev =>
    if curr = NULL then some (s, NULL)
    else if get_size s.mem curr ≥ size then
      let s1 :=
        if c_abs (to_int ((get_size s.mem curr + (2 ^ 64 - size % 2 ^ 64)) % 2 ^ 64)) ≥ 1 then
          split_block s curr size
        else s
      some (free_list_remove s1 curr prev, curr)
    else get_free_block_loop size fuel s (get_next s.mem curr) curr

/-- Function `get_free_block(size)`. -/
def get_free_block (fuel : Nat) (s : State) (size : Nat) : Option (State × Nat) :=
  get_free_block_loop size fuel s s.free_header NULL

/-! ## malloc -/

/-- Function `allocate_block(total_size)`. -/
def allocate_block (s : State) (total_size : Nat) : State × Nat :=
  let r := sbrk s total_size
  if r.2 = SBRK_FAIL then (r.1, NULL) else r

/-- Function `create_header(block, size)`. -/
def create_header (m : Mem) (block size : Nat) : Mem :=
  set_next (set_is_free (set_size m block size) block 0) block NULL

/-- Function `add_to_allocated_list(header)`. -/
def add_to_allocated_list (s : State) (header : Nat) : State :=
  let s1 := if s.head = NULL then { s with head := header } else s
  let s2 := if s1.tail ≠ NULL then { s1 with mem := set_next s1.mem s1.tail header } else s1
  { s2 with tail := header }

/-- Function `malloc(size)`; the result is the new state and the returned pointer. -/
def malloc (fuel : Nat) (s : State) (size : Nat) : Option (State × Nat) :=
  if size = 0 then some (s, NULL)
  else
    match get_free_block fuel s size with
    | none => none
    | some (s1, header) =>
      if header ≠ NULL then
        some ({ s1 with mem := set_is_free s1.mem header 0 }, (header + HDR) % 2 ^ 64)
      else
        let total_size := (HDR + size) % 2 ^ 64
        let r := allocate_block s1 total_size
        if r.2 = NULL then some (r.1, NULL)
        else
          let m1 := create_header r.1.mem r.2 size
          let m2 := set_is_free (set_size m1 r.2 size) r.2 0
          some (add_to_allocated_list { r.1 with mem := m2 } r.2, (r.2 + HDR) % 2 ^ 64)

/-- Function `calloc(num, size)`. -/
def calloc (fuel : Nat) (s : State) (num size : Nat) : Option (State × Nat) :=
  let total_size := (num * size) % 2 ^ 64
  if total_size = 0 then some (s, NULL)
  else
    match malloc fuel s total_size with
    | none => none
    | some (s1, block) =>
      if block = NULL then some (s1, NULL)
      else some ({ s1 with mem := memset s1.mem block 0 total_size }, block)

/-! ## free -/

/-- The `while (tmp)` loop of `release_block`. -/
def release_loop : Nat → State → Nat → Option State
  | 0, s, tmp => if tmp = NULL then some s else none
  | fuel + 1, s, tmp =>
    if tmp = NULL then some s
    else
      let s1 :=
        if get_next s.mem tmp = s.tail then
          { s with mem := set_next s.mem tmp NULL, tail := tmp }
        else s
      release_loop fuel s1 (get_next s1.mem tmp)

/-- Function `release_block(ptr, header)`. -/
def release_block (fuel : Nat) (s : State) (header : Nat) : Option State :=
  let r := if s.head = s.tail then some { s with head := NULL, tail := NULL }
           else release_loop fuel s s.head
  match r with
  | none => none
  | some s1 => some (sbrk s1 ((2 ^ 64 - HDR + (2 ^ 64 - get_size s1.mem header)) % 2 ^ 64)).1

/-- Function `update_free_list(header, prev)`. -/
def update_free_list (s : State) (header prev : Nat) : State :=
  if prev ≠ NULL then { s with mem := set_next s.mem prev header }
  else { s with free_header := header }

/-- The `for` loop of `coalesce_blocks`; returns the state with the final `header` and
`prev`. -/
def coalesce_loop : Nat → State → Nat → Nat → Nat → Option (State × Nat × Nat)
  | 0, s, header, prev, tmp => if tmp = NULL then some (s, header, prev) else none
  | fuel + 1, s, header, prev, tmp =>
    if tmp = NULL then some (s, header, prev)
    else if (tmp + get_size s.mem tmp + HDR) % 2 ^ 64 = header then
      let m1 := set_size s.mem tmp
        ((get_size s.mem tmp + (HDR + get_size s.mem header)) % 2 ^ 64)
      coalesce_loop fuel { s with mem := m1 } tmp prev (get_next m1 tmp)
    else if (header + get_size s.mem header + HDR) % 2 ^ 64 = tmp then
      let m1 := set_size s.mem header
        ((get_size s.mem header + (HDR + get_size s.mem tmp)) % 2 ^ 64)
      let m2 := set_next m1 header (get_next m1 tmp)
      coalesce_loop fuel { s with mem := m2 } header prev (get_next m2 tmp)
    else coalesce_loop fuel s header tmp (get_next s.mem tmp)

/-- Function `coalesce_blocks(header)`. -/
def coalesce_blocks (fuel : Nat) (s : State) (header : Nat) : Option State :=
  match coalesce_loop fuel s header NULL s.free_header with
  | none => none
  | some (s1, header1, prev) => some (update_free_list s1 header1 prev)

/-- Function `free(ptr)`. -/
def free (fuel : Nat) (s : State) (ptr : Nat) : Option State :=
  if ptr = NULL then some s
  else
    let header := (ptr + (2 ^ 64 - HDR)) % 2 ^ 64
    let r := sbrk s 0
    let programbreak := r.2
    if (ptr + get_size r.1.mem header) % 2 ^ 64 = programbreak then
      release_block fuel r.1 header
    else
      coalesce_blocks fuel { r.1 with mem := set_is_free r.1.mem header 1 } header

/-! ## realloc -/

/-- Function `realloc(ptr, size)`. -/
def realloc (fuel : Nat) (s : State) (ptr size : Nat) : Option (State × Nat) :=
  if ptr = NULL ∨ size = 0 then malloc fuel s size
  else
    let header := (ptr + (2 ^ 64 - HDR)) % 2 ^ 64
    if get_size s.mem header ≥ size then some (s, ptr)
    else
      match malloc fuel s size with
      | none => none
      | some (s1, new_ptr) =>
        if new_ptr = NULL then some (s1, NULL)
        else
          let m1 := memcpy s1.mem new_ptr ptr (get_size s1.mem header)
          match free fuel { s1 with mem := m1 } ptr with
          | none => none
          | some s2 => some (s2, new_ptr)

/-! ## Call sequences -/

/-- One call of the public interface.  `realloc i n` and `free i` take as pointer the
value returned by call number `i` (counted from 0) of the same sequence. -/
inductive Call where
  | malloc (size : Nat)
  | calloc (num size : Nat)
  | realloc (i size : Nat)
  | free (i : Nat)

/-- A live block: the number of the call that returned it, the pointer, the requested size. -/
abbrev LiveBlock := Nat × Nat × Nat

/-- The allocator state together with what the caller has seen: the value returned by
each call so far (`0` for `free`) and the blocks that are live. -/
structure Trace where
  st : State
  results : List Nat
  live : List LiveBlock

/-- The live block returned by call number `i`, if there is one. -/
def find_live (live : List LiveBlock) (i : Nat) : Option LiveBlock :=
  live.find? (fun b => b.1 == i)

/-- The live blocks without the one returned by call number `i`. -/
def drop_live (live : List LiveBlock) (i : Nat) : List LiveBlock :=
  live.filter (fun b => b.1 != i)

/-- Performs one call.  The result is `none` when the call is not valid (`free` or
`realloc` of something that is not live) or when a loop of the allocator runs out of fuel.
A non-null result becomes a live block; `free` and a successful `realloc` end the life of
their argument. -/
def step (fuel : Nat) (t : Trace) (c : Call) : Option Trace :=
  let k := t.results.length
  match c with
  | .malloc n =>
    match malloc fuel t.st n with
    | none => none
    | some (s, p) =>
      some { st := s, results := t.results ++ [p],
             live := if p = NULL then t.live else t.live ++ [(k, p, n)] }
  | .calloc num size =>
    match calloc fuel t.st num size with
    | none => none
    | some (s, p) =>
      some { st := s, results := t.results ++ [p],
             live := if p = NULL then t.live else t.live ++ [(k, p, num * size)] }
  | .realloc i n =>
    match find_live t.live i with
    | none => none
    | some b =>
      match realloc fuel t.st b.2.1 n with
      | none => none
      | some (s, q) =>
        some { st := s, results := t.results ++ [q],
               live := if q = NULL then t.live else drop_live t.live i ++ [(k, q, n)] }
  | .free i =>
    match find_live t.live i with
    | none => none
    | some b =>
      match free fuel t.st b.2.1 with
      | none => none
      | some s => some { st := s, results := t.results ++ [0], live := drop_live t.live i }

/-- Performs a sequence of calls. -/
def run (fuel : Nat) : Trace → List Call → Option Trace
  | t, [] => some t
  | t, c :: cs =>
    match step fuel t c with
    | none => none
    | some t1 => run fuel t1 cs

/-- The trace of the empty allocator over zero-filled memory. -/
def start (base limit : Nat) : Trace :=
  { st := init base limit (fun _ => 0), results := [], live := [] }

/-- Whether the payload ranges `[p, p + size)` of two live blocks share a byte. -/
def overlap (a b : LiveBlock) : Bool :=
  decide (a.2.1 < b.2.1 + b.2.2 ∧ b.2.1 < a.2.1 + a.2.2)

/-- Whether some two blocks of the list overlap. -/
def some_overlap : List LiveBlock → Bool
  | [] => false
  | a :: rest => rest.any (overlap a) || some_overlap rest

/-- The chain of descriptors reached from `p` through `next`, up to the null pointer;
`none` when the chain is longer than `fuel`. -/
def chain (m : Mem) : Nat → Nat → Option (List Nat)
  | 0, p => if p = NULL then some [] else none
  | fuel + 1, p =>
    if p = NULL then some []
    else match chain m fuel (get_next m p) with
      | none => none
      | some l => some (p :: l)

/-- The free list of a state. -/
def free_list (fuel : Nat) (s : State) : Option (List Nat) :=
  chain s.mem fuel s.free_header

/-! ## Auxiliary notions used in the statements -/

/-- The memory after `malloc` has written a fresh descriptor at `blk` (`create_header`
followed by the two assignments of lines 162-163). -/
def fresh_header (m : Mem) (blk size : Nat) : Mem :=
  set_is_free (set_size (create_header m blk size) blk size) blk 0

/-- The memory after `malloc(a)` and `malloc(b)` on the empty allocator over `m`. -/
def mem2 (m : Mem) (base a b : Nat) : Mem :=
  set_next (fresh_header (fresh_header m base a) (base + (HDR + a)) b) base (base + (HDR + a))

/-- The state after `malloc(a)` and `malloc(b)` on the empty allocator over `m`. -/
def state2 (m : Mem) (base limit a b : Nat) : State :=
  { mem := mem2 m base a b, brk := base + (HDR + a) + (HDR + b), head := base,
    tail := base + (HDR + a), free_header := NULL, base := base, limit := limit }

/-- The descriptor address `(header_t*)ptr - 1` of a payload pointer. -/
def header_of (ptr : Nat) : Nat := (ptr + (2 ^ 64 - HDR)) % 2 ^ 64

/-- The assumptions on the environment: the break lies between its two bounds, the
heap does not start at address 0 and ends in the lower half of the address space. -/
def env_ok (s : State) : Prop :=
  0 < s.base ∧ s.base ≤ s.brk ∧ s.brk ≤ s.limit ∧ s.limit < 2 ^ 63

/-- A well-formed free list: the chain from `free_header` is finite (it is `l`) and
each of its descriptors lies inside the heap. -/
def free_list_ok (fuel : Nat) (s : State) (l : List Nat) : Prop :=
  free_list fuel s = some l ∧ ∀ h ∈ l, s.base ≤ h ∧ h + HDR ≤ s.brk

/-- What a trace shows of the allocator: the returned values, the live blocks, and the
four words of allocator state. -/
def observe (t : Trace) : List Nat × List LiveBlock × Nat × Nat × Nat × Nat :=
  (t.results, t.live, t.st.brk, t.st.head, t.st.tail, t.st.free_header)

/-- The payload sizes of the free-list entries of a state, in list order. -/
def free_sizes (fuel : Nat) (s : State) : Option (List Nat) :=
  (free_list fuel s).map (fun l => l.map (get_size s.mem))

/-- The `n` bytes of memory starting at `p`. -/
def bytes (m : Mem) (p n : Nat) : List Nat :=
  (List.range n).map (fun i => m (p + i))

/-- The allocator state reached by a call sequence from `start base limit`; the empty
allocator at address 0 stands in when the sequence does not run. -/
def final_state (fuel base limit : Nat) (calls : List Call) : State :=
  match run fuel (start base limit) calls with
  | some t => t.st
  | none => init 0 0 (fun _ => 0)

/-- Writes a whole descriptor (`size`, `is_free`, `next`) at `h`. -/
def put_header (m : Mem) (h size is_free next : Nat) : Mem :=
  set_next (set_is_free (set_size m h size) h is_free) h next

/-- A heap with three free blocks, laid out as `T = 4096` (payload 10), `H = 4130`
(payload 20, directly above `T`) and `X = 4200` (payload 30).  The free list is
`T → X → NULL`; `H` is marked free, has a null `next` and is not on the list. -/
def three_blocks : State :=
  { mem := put_header (put_header (put_header (fun _ => 0) 4096 10 1 4200) 4130 20 1 0)
      4200 30 1 0,
    brk := 4300, head := NULL, tail := NULL, free_header := 4096, base := 4096,
    limit := 65536 }

/-- The extent `[h, h + sizeof(header_t) + size)` of the block whose descriptor is `h`,
as a pair of bounds. -/
def extent (m : Mem) (h : Nat) : Nat × Nat := (h, h + HDR + get_size m h)

/-! ## Lemmas: memory, the break primitive, single steps -/

theorem load_congr (m1 m2 : Mem) (k : Nat) : ∀ (a : Nat),
    (∀ x, a ≤ x → x < a + k → m1 x = m2 x) → load m1 a k = load m2 a k := by
  induction k with
  | zero => intro a _; rfl
  | succ k ih =>
    intro a h
    simp only [load]
    rw [h a (Nat.le_refl a) (by omega), ih (a + 1) (fun x h1 h2 => h x (by omega) (by omega))]

theorem load_lt (m : Mem) (k : Nat) : ∀ (a : Nat), load m a k < 256 ^ k := by
  induction k with
  | zero => intro a; simp [load]
  | succ k ih =>
    intro a
    have h1 := ih (a + 1)
    have h2 : m a % 256 < 256 := Nat.mod_lt _ (by decide)
    simp only [load, pow_succ]
    omega

theorem store_apply_in (m : Mem) (a n v x : Nat) (h1 : a ≤ x) (h2 : x < a + n) :
    store m a n v x = v / 256 ^ (x - a) % 256 := by
  simp [store, h1, h2]

theorem store_apply_out (m : Mem) (a n v x : Nat) (h : x < a ∨ a + n ≤ x) :
    store m a n v x = m x := by
  have : ¬ (a ≤ x ∧ x < a + n) := by omega
  simp [store, this]

theorem load_store_same (m : Mem) (n : Nat) : ∀ (a v : Nat),
    load (store m a n v) a n = v % 256 ^ n := by
  induction n with
  | zero => intro a v; simp [load, Nat.mod_one]
  | succ n ih =>
    intro a v
    have hrest : load (store m a (n + 1) v) (a + 1) n = load (store m (a + 1) n (v / 256)) (a + 1) n := by
      apply load_congr
      intro x h1 h2
      rw [store_apply_in _ _ _ _ _ (by omega) (by omega), store_apply_in _ _ _ _ _ h1 h2]
      have hx : x - a = (x - (a + 1)) + 1 := by omega
      rw [hx, pow_succ, Nat.mul_comm, Nat.div_div_eq_div_mul]
    simp only [load]
    rw [hrest, ih, store_apply_in _ _ _ _ _ (Nat.le_refl a) (by omega)]
    simp only [Nat.sub_self, pow_zero, Nat.div_one, Nat.mod_mod]
    rw [pow_succ, Nat.mul_comm (256 ^ n) 256, Nat.mod_mul]

theorem load_store_disj (m : Mem) (a n v b k : Nat) (h : a + n ≤ b ∨ b + k ≤ a) :
    load (store m a n v) b k = load m b k := by
  apply load_congr
  intro x h1 h2
  exact store_apply_out _ _ _ _ _ (by omega)

theorem get_free_block_loop_null (size fuel : Nat) (s : State) (prev : Nat) :
    get_free_block_loop size fuel s NULL prev = some (s, NULL) := by
  cases fuel <;> simp [get_free_block_loop]

theorem sbrk_up (s : State) (inc : Nat) (h1 : inc < 2 ^ 63) (h2 : s.brk + inc ≤ s.limit) :
    sbrk s inc = ({ s with brk := s.brk + inc }, s.brk) := by
  unfold sbrk; rw [if_pos h1, if_pos h2]

theorem sbrk_down (s : State) (inc : Nat) (h1 : 2 ^ 63 ≤ inc)
    (h2 : s.base + (2 ^ 64 - inc) ≤ s.brk) :
    sbrk s inc = ({ s with brk := s.brk - (2 ^ 64 - inc) }, s.brk) := by
  have h3 : ¬ inc < 2 ^ 63 := by omega
  simp only [sbrk, h3, h2, if_true, if_false]

theorem sbrk_ok_cases (s : State) (inc : Nat) (h : (sbrk s inc).2 ≠ SBRK_FAIL) :
    (inc < 2 ^ 63 ∧ s.brk + inc ≤ s.limit) ∨
    (2 ^ 63 ≤ inc ∧ s.base + (2 ^ 64 - inc) ≤ s.brk) := by
  unfold sbrk at h
  by_cases h1 : inc < 2 ^ 63
  · by_cases h2 : s.brk + inc ≤ s.limit
    · exact Or.inl ⟨h1, h2⟩
    · rw [if_pos h1, if_neg h2] at h
      exact absurd rfl h
  · by_cases h2 : s.base + (2 ^ 64 - inc) ≤ s.brk
    · exact Or.inr ⟨by omega, h2⟩
    · rw [if_neg h1, if_neg h2] at h
      exact absurd rfl h

theorem get_size_fresh (m : Mem) (h v : Nat) (hv : v < 2 ^ 64) :
    get_size (set_is_free (set_size (create_header m h v) h v) h 0) h = v := by
  simp (disch := omega) only [get_size, set_size, set_is_free, set_next, create_header,
    load_store_same, load_store_disj]
  exact Nat.mod_eq_of_lt (by omega)

theorem malloc_fresh (fuel : Nat) (s s1 s2 : State) (size blk : Nat) (hs : size ≠ 0)
    (hmiss : get_free_block fuel s size = some (s1, NULL))
    (hsb : sbrk s1 ((HDR + size) % 2 ^ 64) = (s2, blk))
    (h1 : blk ≠ SBRK_FAIL) (h2 : blk ≠ NULL) :
    malloc fuel s size = some
      (add_to_allocated_list
        { s2 with mem := set_is_free (set_size (create_header s2.mem blk size) blk size) blk 0 }
        blk, (blk + HDR) % 2 ^ 64) := by
  simp only [malloc, hs, if_false, hmiss, allocate_block, hsb, h1, h2, ne_eq, not_true]

theorem sbrk_zero (s : State) (h : s.brk ≤ s.limit) : sbrk s 0 = (s, s.brk) := by
  unfold sbrk
  rw [if_pos (by omega), if_pos (by omega)]
  rfl

theorem sbrk_fields (s : State) (inc : Nat) :
    (sbrk s inc).1.mem = s.mem ∧ (sbrk s inc).1.head = s.head ∧ (sbrk s inc).1.tail = s.tail ∧
    (sbrk s inc).1.free_header = s.free_header ∧ (sbrk s inc).1.base = s.base ∧
    (sbrk s inc).1.limit = s.limit := by
  unfold sbrk
  split <;> split <;> simp

theorem free_tail (fuel : Nat) (s : State) (ptr : Nat) (hp : ptr ≠ NULL) (h0 : s.brk ≤ s.limit)
    (hd : (ptr + get_size s.mem ((ptr + (2 ^ 64 - HDR)) % 2 ^ 64)) % 2 ^ 64 = s.brk) :
    free fuel s ptr = release_block fuel s ((ptr + (2 ^ 64 - HDR)) % 2 ^ 64) := by
  simp only [free, if_neg hp, sbrk_zero s h0, hd, if_true]

theorem release_block_single (fuel : Nat) (s : State) (header : Nat) (h : s.head = s.tail) :
    release_block fuel s header =
      some (sbrk { s with head := NULL, tail := NULL }
        ((2 ^ 64 - HDR + (2 ^ 64 - get_size s.mem header)) % 2 ^ 64)).1 := by
  simp only [release_block, if_pos h]

theorem malloc_init (fuel base limit size t : Nat) (m : Mem) (hs : size ≠ 0) (hb : 0 < base)
    (hl : limit < 2 ^ 63) (ht : t = (HDR + size) % 2 ^ 64) (h1 : t < 2 ^ 63)
    (h2 : base + t ≤ limit) :
    malloc fuel (init base limit m) size = some
      ({ mem := fresh_header m base size, brk := base + t, head := base, tail := base,
         free_header := NULL, base := base, limit := limit }, base + HDR) := by
  have hmiss : get_free_block fuel (init base limit m) size = some (init base limit m, NULL) := by
    simp only [get_free_block, init, get_free_block_loop_null]
  have hsb := sbrk_up (init base limit m) t h1 h2
  rw [ht] at hsb
  have hm := malloc_fresh fuel _ _ _ size _ hs hmiss hsb
    (by simp only [init, SBRK_FAIL]; omega) (by simp only [init, NULL]; omega)
  rw [hm]
  have hp : (base + HDR) % 2 ^ 64 = base + HDR := by simp only [HDR]; omega
  simp only [init, add_to_allocated_list, NULL, if_true, ne_eq, not_true, if_false, hp,
    fresh_header, ← ht]

theorem sbrk_lower (s : State) (inc d : Nat) (hd : d ≤ 2 ^ 63) (hinc : inc = (2 ^ 64 - d) % 2 ^ 64)
    (h1 : s.base + d ≤ s.brk) (h2 : s.brk ≤ s.limit) :
    sbrk s inc = ({ s with brk := s.brk - d }, s.brk) := by
  by_cases h0 : d = 0
  · subst h0
    have : inc = 0 := by omega
    rw [this, sbrk_zero s h2]
    rfl
  · have h3 : 2 ^ 64 - inc = d := by omega
    rw [sbrk_down s inc (by omega) (by omega), h3]

theorem coalesce_loop_null (fuel : Nat) (s : State) (header prev : Nat) :
    coalesce_loop fuel s header prev NULL = some (s, header, prev) := by
  cases fuel <;> simp [coalesce_loop]

theorem malloc_no_free (fuel : Nat) (s : State) (size t : Nat) (hs : size ≠ 0)
    (hfh : s.free_header = NULL) (ht : t = (HDR + size) % 2 ^ 64) (h1 : t < 2 ^ 63)
    (h2 : s.brk + t ≤ s.limit) (h3 : 0 < s.brk) (h4 : s.limit < 2 ^ 63) :
    malloc fuel s size = some
      (add_to_allocated_list
        { s with brk := s.brk + t, mem := fresh_header s.mem s.brk size } s.brk,
       s.brk + HDR) := by
  have hmiss : get_free_block fuel s size = some (s, NULL) := by
    simp only [get_free_block, hfh, get_free_block_loop_null]
  have hsb := sbrk_up s t h1 h2
  rw [ht] at hsb
  have hm := malloc_fresh fuel _ _ _ size _ hs hmiss hsb
    (by simp only [SBRK_FAIL]; omega) (by simp only [NULL]; omega)
  rw [hm]
  have hp : (s.brk + HDR) % 2 ^ 64 = s.brk + HDR := by simp only [HDR]; omega
  simp only [hp, fresh_header, ← ht]

theorem free_no_free_list (fuel : Nat) (s : State) (ptr : Nat) (hp : ptr ≠ NULL)
    (h0 : s.brk ≤ s.limit) (hfh : s.free_header = NULL)
    (hd : (ptr + get_size s.mem ((ptr + (2 ^ 64 - HDR)) % 2 ^ 64)) % 2 ^ 64 ≠ s.brk) :
    free fuel s ptr = some
      { s with mem := set_is_free s.mem ((ptr + (2 ^ 64 - HDR)) % 2 ^ 64) 1,
               free_header := (ptr + (2 ^ 64 - HDR)) % 2 ^ 64 } := by
  simp only [free, if_neg hp, sbrk_zero s h0, hd, if_false, coalesce_blocks, hfh,
    coalesce_loop_null, update_free_list, ne_eq, not_true]

theorem no_split_of_eq (size : Nat) :
    ¬ c_abs (to_int ((size + (2 ^ 64 - size % 2 ^ 64)) % 2 ^ 64)) ≥ 1 := by
  have : (size + (2 ^ 64 - size % 2 ^ 64)) % 2 ^ 64 = 0 := by omega
  rw [this]
  decide

theorem malloc_exact_head (fuel : Nat) (s : State) (size : Nat) (hs : size ≠ 0)
    (hfh : s.free_header ≠ NULL)
    (hsz : get_size s.mem s.free_header = size) :
    malloc (fuel + 1) s size = some
      ({ s with mem := set_is_free s.mem s.free_header 0,
                free_header := get_next s.mem s.free_header },
       (s.free_header + HDR) % 2 ^ 64) := by
  have h1 : get_free_block (fuel + 1) s size =
      some ({ s with free_header := get_next s.mem s.free_header }, s.free_header) := by
    simp only [get_free_block, get_free_block_loop, if_neg hfh, hsz, ge_iff_le, le_refl,
      if_true, if_neg (no_split_of_eq size), free_list_remove, ne_eq, not_true, if_false]
  simp only [malloc, if_neg hs, h1, hfh, ne_eq, not_false_eq_true, if_true]

theorem chain_null (m : Mem) (fuel : Nat) : chain m fuel NULL = some [] := by
  cases fuel <;> simp [chain]

theorem chain_ne_null (m : Mem) : ∀ (fuel p : Nat) (l : List Nat),
    chain m fuel p = some l → ∀ h ∈ l, h ≠ NULL := by
  intro fuel
  induction fuel with
  | zero =>
    intro p l hc h hh
    by_cases hp : p = NULL
    · simp only [chain, if_pos hp, Option.some.injEq] at hc
      subst hc; simp at hh
    · simp [chain, hp] at hc
  | succ fuel ih =>
    intro p l hc h hh
    by_cases hp : p = NULL
    · simp only [chain, if_pos hp, Option.some.injEq] at hc
      subst hc; simp at hh
    · simp only [chain, if_neg hp] at hc
      cases hrec : chain m fuel (get_next m p) with
      | none => simp [hrec] at hc
      | some l' =>
        simp only [hrec, Option.some.injEq] at hc
        subst hc
        rcases List.mem_cons.mp hh with h1 | h1
        · rw [h1]; exact hp
        · exact ih _ _ hrec h h1

theorem gfb_miss (size : Nat) (s : State) : ∀ (fuel curr prev : Nat) (l : List Nat),
    chain s.mem fuel curr = some l → (∀ h ∈ l, get_size s.mem h < size) →
    get_free_block_loop size fuel s curr prev = some (s, NULL) := by
  intro fuel
  induction fuel with
  | zero =>
    intro curr prev l hc _
    by_cases hp : curr = NULL
    · simp only [get_free_block_loop, if_pos hp]
    · simp [chain, hp] at hc
  | succ fuel ih =>
    intro curr prev l hc hall
    by_cases hp : curr = NULL
    · simp only [get_free_block_loop, if_pos hp]
    · simp only [chain, if_neg hp] at hc
      cases hrec : chain s.mem fuel (get_next s.mem curr) with
      | none => simp [hrec] at hc
      | some l' =>
        simp only [hrec, Option.some.injEq] at hc
        subst hc
        have h1 : ¬ get_size s.mem curr ≥ size := by
          have := hall curr (List.mem_cons_self _ _)
          omega
        simp only [get_free_block_loop, if_neg hp, if_neg h1]
        exact ih _ _ l' hrec (fun h hh => hall h (List.mem_cons_of_mem _ hh))

theorem gfb_hit (size : Nat) (s : State) : ∀ (fuel curr prev : Nat) (l : List Nat),
    chain s.mem fuel curr = some l → (∃ h ∈ l, size ≤ get_size s.mem h) →
    ∃ s1 h, h ∈ l ∧ get_free_block_loop size fuel s curr prev = some (s1, h) := by
  intro fuel
  induction fuel with
  | zero =>
    intro curr prev l hc hex
    by_cases hp : curr = NULL
    · simp only [chain, if_pos hp, Option.some.injEq] at hc
      subst hc
      obtain ⟨h, hh, _⟩ := hex
      simp at hh
    · simp [chain, hp] at hc
  | succ fuel ih =>
    intro curr prev l hc hex
    by_cases hp : curr = NULL
    · simp only [chain, if_pos hp, Option.some.injEq] at hc
      subst hc
      obtain ⟨h, hh, _⟩ := hex
      simp at hh
    · simp only [chain, if_neg hp] at hc
      cases hrec : chain s.mem fuel (get_next s.mem curr) with
      | none => simp [hrec] at hc
      | some l' =>
        simp only [hrec, Option.some.injEq] at hc
        subst hc
        by_cases h1 : get_size s.mem curr ≥ size
        · simp only [get_free_block_loop, if_neg hp, if_pos h1]
          exact ⟨_, curr, List.mem_cons_self _ _, rfl⟩
        · simp only [get_free_block_loop, if_neg hp, if_neg h1]
          obtain ⟨h, hh, hsz⟩ := hex
          have hh' : h ∈ l' := by
            rcases List.mem_cons.mp hh with h2 | h2
            · subst h2; omega
            · exact h2
          obtain ⟨s1, h', hm, hr⟩ := ih (get_next s.mem curr) curr l' hrec ⟨h, hh', hsz⟩
          exact ⟨s1, h', List.mem_cons_of_mem _ hm, hr⟩

theorem sbrk_fail_state (s : State) (inc : Nat) (hb : s.brk ≠ SBRK_FAIL)
    (h : (sbrk s inc).2 = SBRK_FAIL) : sbrk s inc = (s, SBRK_FAIL) := by
  unfold sbrk at h ⊢
  by_cases h1 : inc < 2 ^ 63
  · by_cases h2 : s.brk + inc ≤ s.limit
    · rw [if_pos h1, if_pos h2] at h
      exact absurd h hb
    · rw [if_pos h1, if_neg h2]
  · by_cases h2 : s.base + (2 ^ 64 - inc) ≤ s.brk
    · rw [if_neg h1, if_pos h2] at h
      exact absurd h hb
    · rw [if_neg h1, if_neg h2]

theorem sbrk_ok_result (s : State) (inc : Nat) (h : (sbrk s inc).2 ≠ SBRK_FAIL) :
    (sbrk s inc).2 = s.brk := by
  unfold sbrk at h ⊢
  by_cases h1 : inc < 2 ^ 63
  · by_cases h2 : s.brk + inc ≤ s.limit
    · rw [if_pos h1, if_pos h2]
    · rw [if_pos h1, if_neg h2] at h
      exact absurd rfl h
  · by_cases h2 : s.base + (2 ^ 64 - inc) ≤ s.brk
    · rw [if_neg h1, if_pos h2]
    · rw [if_neg h1, if_neg h2] at h
      exact absurd rfl h

theorem malloc_miss_fail (fuel : Nat) (s : State) (size : Nat) (l : List Nat) (hs : size ≠ 0)
    (hb : s.brk ≠ SBRK_FAIL) (hfl : free_list fuel s = some l)
    (hno : ∀ h ∈ l, get_size s.mem h < size)
    (hfail : (sbrk s ((HDR + size) % 2 ^ 64)).2 = SBRK_FAIL) :
    malloc fuel s size = some (s, NULL) := by
  have hmiss : get_free_block fuel s size = some (s, NULL) :=
    gfb_miss size s fuel s.free_header NULL l hfl hno
  have hsb := sbrk_fail_state s _ hb hfail
  simp only [malloc, if_neg hs, hmiss, allocate_block, hsb, ne_eq, not_true, if_false, if_true]

theorem release_loop_null (fuel : Nat) (s : State) : release_loop fuel s NULL = some s := by
  cases fuel <;> simp [release_loop]

theorem get_next_set_next (m : Mem) (h v : Nat) (hv : v < 2 ^ 64) :
    get_next (set_next m h v) h = v := by
  simp only [get_next, set_next, load_store_same]
  exact Nat.mod_eq_of_lt (by omega)

theorem two_mallocs (fuel base limit a b : Nat) (m : Mem) (ha : 0 < a) (hb : 0 < b)
    (hbase : 0 < base) (hlim : limit < 2 ^ 63)
    (hgrow : base + (HDR + a) + (HDR + b) ≤ limit) :
    malloc fuel (init base limit m) a = some
      ({ mem := fresh_header m base a, brk := base + (HDR + a), head := base, tail := base,
         free_header := NULL, base := base, limit := limit }, base + HDR) ∧
    malloc fuel
      { mem := fresh_header m base a, brk := base + (HDR + a), head := base, tail := base,
        free_header := NULL, base := base, limit := limit } b =
      some (state2 m base limit a b, base + (HDR + a) + HDR) := by
  simp only [HDR] at hgrow
  have hA : base ≠ NULL := by simp only [NULL]; omega
  have hm1 := malloc_no_free fuel (init base limit m) a (HDR + a) (by omega) rfl
    (by simp only [HDR]; omega) (by simp only [HDR]; omega)
    (by simp only [init, HDR]; omega) hbase hlim
  simp only [init, add_to_allocated_list, if_true, ne_eq, not_true, if_false] at hm1
  have hm2 := malloc_no_free fuel
    { mem := fresh_header m base a, brk := base + (HDR + a), head := base, tail := base,
      free_header := NULL, base := base, limit := limit } b (HDR + b) (by omega) rfl
    (by simp only [HDR]; omega) (by simp only [HDR]; omega)
    (by simp only [HDR]; omega) (by simp only [HDR]; omega) hlim
  simp only [add_to_allocated_list] at hm2
  simp only [hA, if_false, ne_eq, not_false_eq_true, if_true] at hm2
  exact ⟨hm1, hm2⟩

theorem mem2_size_A (m : Mem) (base a b : Nat) (ha : a < 2 ^ 64) :
    get_size (mem2 m base a b) base = a := by
  simp only [mem2, HDR]
  simp (disch := omega) only [get_size, set_size, set_is_free, set_next,
    create_header, fresh_header, load_store_same, load_store_disj]
  exact Nat.mod_eq_of_lt (by omega)

theorem mem2_size_B (m : Mem) (base a b : Nat) (hb : b < 2 ^ 64) :
    get_size (mem2 m base a b) (base + (HDR + a)) = b := by
  simp only [mem2, HDR]
  simp (disch := omega) only [get_size, set_size, set_is_free, set_next,
    create_header, fresh_header, load_store_same, load_store_disj]
  exact Nat.mod_eq_of_lt (by omega)

theorem mem2_next_A (m : Mem) (base a b : Nat) (h : base + (HDR + a) < 2 ^ 64) :
    get_next (mem2 m base a b) base = base + (HDR + a) :=
  get_next_set_next _ _ _ h

theorem release_block_two (fuel : Nat) (s : State) (header : Nat) (h1 : s.head ≠ s.tail)
    (h2 : s.head ≠ NULL) (h3 : get_next s.mem s.head = s.tail) :
    release_block (fuel + 1) s header = some
      (sbrk { s with mem := set_next s.mem s.head NULL, tail := s.head }
        ((2 ^ 64 - HDR + (2 ^ 64 - get_size (set_next s.mem s.head NULL) header)) % 2 ^ 64)).1 := by
  have h4 : get_next (set_next s.mem s.head NULL) s.head = NULL :=
    get_next_set_next _ _ _ (by simp only [NULL]; omega)
  simp only [release_block, if_neg h1, release_loop, if_neg h2, h3, if_true, h4,
    release_loop_null]

theorem get_size_set_next (m : Mem) (h v x : Nat) (hx : x + 8 ≤ h + 16 ∨ h + 24 ≤ x) :
    get_size (set_next m h v) x = get_size m x := by
  simp (disch := omega) only [get_size, set_next, load_store_disj]

theorem get_size_set_is_free (m : Mem) (h v x : Nat) (hx : x ≤ h ∨ h + 12 ≤ x) :
    get_size (set_is_free m h v) x = get_size m x := by
  simp (disch := omega) only [get_size, set_is_free, load_store_disj]

theorem get_next_set_is_free (m : Mem) (h v x : Nat) (hx : x + 16 ≤ h ∨ h ≤ x + 4) :
    get_next (set_is_free m h v) x = get_next m x := by
  simp (disch := omega) only [get_next, set_is_free, load_store_disj]

theorem get_next_set_size (m : Mem) (h v x : Nat) (hx : x + 24 ≤ h ∨ h ≤ x + 8) :
    get_next (set_size m h v) x = get_next m x := by
  simp (disch := omega) only [get_next, set_size, load_store_disj]

theorem header_of_payload (h : Nat) (hh : h + HDR < 2 ^ 64) :
    (h + HDR + (2 ^ 64 - HDR)) % 2 ^ 64 = h := by
  simp only [HDR] at hh ⊢; omega

/-- Order B then A, first release: B is the trailing block and goes back to the system. -/
theorem free_B_first (fuel base limit a b : Nat) (m : Mem) (ha : 0 < a) (hb : 0 < b)
    (hbase : 0 < base) (hlim : limit < 2 ^ 63)
    (hgrow : base + (HDR + a) + (HDR + b) ≤ limit) :
    free (fuel + 1) (state2 m base limit a b) (base + (HDR + a) + HDR) = some
      { mem := set_next (mem2 m base a b) base NULL, brk := base + (HDR + a), head := base,
        tail := base, free_header := NULL, base := base, limit := limit } := by
  simp only [HDR] at hgrow
  have hB : (base + (HDR + a) + HDR + (2 ^ 64 - HDR)) % 2 ^ 64 = base + (HDR + a) :=
    header_of_payload _ (by simp only [HDR]; omega)
  have hszB := mem2_size_B m base a b (by omega)
  rw [free_tail _ _ _ (by simp only [HDR, NULL]; omega) (by simp only [state2, HDR]; omega)
    (by
      show (base + (HDR + a) + HDR + get_size (mem2 m base a b)
        ((base + (HDR + a) + HDR + (2 ^ 64 - HDR)) % 2 ^ 64)) % 2 ^ 64 =
        base + (HDR + a) + (HDR + b)
      rw [hB, hszB]; simp only [HDR]; omega)]
  rw [hB, release_block_two fuel (state2 m base limit a b) _
    (by simp only [state2, HDR]; omega) (by simp only [state2, NULL]; omega)
    (by simp only [state2]; exact mem2_next_A m base a b (by simp only [HDR]; omega))]
  have hsz' : get_size (set_next (mem2 m base a b) base NULL) (base + (HDR + a)) = b := by
    rw [get_size_set_next _ _ _ _ (by simp only [HDR]; omega), hszB]
  simp only [state2, hsz']
  rw [sbrk_lower _ _ (HDR + b) (by simp only [HDR]; omega) (by simp only [HDR]; omega)
    (by simp only [HDR]; omega) (by simp only [HDR]; omega)]
  have : base + (HDR + a) + (HDR + b) - (HDR + b) = base + (HDR + a) := by omega
  simp only [this]

/-- Order B then A, second release: A has become the trailing block. -/
theorem free_A_second (fuel base limit a b : Nat) (m : Mem) (ha : 0 < a)
    (hbase : 0 < base) (hlim : limit < 2 ^ 63) (hgrow : base + (HDR + a) ≤ limit) :
    free (fuel + 1)
      { mem := set_next (mem2 m base a b) base NULL, brk := base + (HDR + a), head := base,
        tail := base, free_header := NULL, base := base, limit := limit } (base + HDR) = some
      { mem := set_next (mem2 m base a b) base NULL, brk := base, head := NULL,
        tail := NULL, free_header := NULL, base := base, limit := limit } := by
  simp only [HDR] at hgrow
  have hA : (base + HDR + (2 ^ 64 - HDR)) % 2 ^ 64 = base :=
    header_of_payload _ (by simp only [HDR]; omega)
  have hszA : get_size (set_next (mem2 m base a b) base NULL) base = a := by
    rw [get_size_set_next _ _ _ _ (by omega), mem2_size_A m base a b (by omega)]
  rw [free_tail _ _ _ (by simp only [HDR, NULL]; omega) (by simp only [HDR]; omega)
    (by
      show (base + HDR + get_size (set_next (mem2 m base a b) base NULL)
        ((base + HDR + (2 ^ 64 - HDR)) % 2 ^ 64)) % 2 ^ 64 = base + (HDR + a)
      rw [hA, hszA]; simp only [HDR]; omega)]
  rw [hA, release_block_single _ _ _ rfl]
  simp only [hszA]
  rw [sbrk_lower _ _ (HDR + a) (by simp only [HDR]; omega) (by simp only [HDR]; omega)
    (by simp only [HDR]; omega) (by simp only [HDR]; omega)]
  have : base + (HDR + a) - (HDR + a) = base := by omega
  simp only [this]

/-- Order A then B, first release: A goes on the (empty) free list. -/
theorem free_A_first (fuel base limit a b : Nat) (m : Mem) (ha : 0 < a) (hb : 0 < b)
    (hbase : 0 < base) (hlim : limit < 2 ^ 63)
    (hgrow : base + (HDR + a) + (HDR + b) ≤ limit) :
    free (fuel + 1) (state2 m base limit a b) (base + HDR) = some
      { mem := set_is_free (mem2 m base a b) base 1, brk := base + (HDR + a) + (HDR + b),
        head := base, tail := base + (HDR + a), free_header := base, base := base,
        limit := limit } := by
  simp only [HDR] at hgrow
  have hA : (base + HDR + (2 ^ 64 - HDR)) % 2 ^ 64 = base :=
    header_of_payload _ (by simp only [HDR]; omega)
  have hf := free_no_free_list (fuel + 1) (state2 m base limit a b) (base + HDR)
    (by simp only [HDR, NULL]; omega) (by simp only [state2, HDR]; omega) rfl
    (by
      show (base + HDR + get_size (mem2 m base a b)
        ((base + HDR + (2 ^ 64 - HDR)) % 2 ^ 64)) % 2 ^ 64 ≠ base + (HDR + a) + (HDR + b)
      rw [hA, mem2_size_A m base a b (by omega)]; simp only [HDR]; omega)
  simp only [hA, state2] at hf
  simp only [state2, hf]

/-- Order A then B, second release: B is the trailing block and goes back to the system;
the allocated-list scan resets `A.next`. -/
theorem free_B_second (fuel base limit a b : Nat) (m : Mem) (ha : 0 < a) (hb : 0 < b)
    (hbase : 0 < base) (hlim : limit < 2 ^ 63)
    (hgrow : base + (HDR + a) + (HDR + b) ≤ limit) :
    free (fuel + 1)
      { mem := set_is_free (mem2 m base a b) base 1, brk := base + (HDR + a) + (HDR + b),
        head := base, tail := base + (HDR + a), free_header := base, base := base,
        limit := limit } (base + (HDR + a) + HDR) = some
      { mem := set_next (set_is_free (mem2 m base a b) base 1) base NULL,
        brk := base + (HDR + a), head := base, tail := base, free_header := base,
        base := base, limit := limit } := by
  simp only [HDR] at hgrow
  have hB : (base + (HDR + a) + HDR + (2 ^ 64 - HDR)) % 2 ^ 64 = base + (HDR + a) :=
    header_of_payload _ (by simp only [HDR]; omega)
  have hszB : get_size (set_is_free (mem2 m base a b) base 1) (base + (HDR + a)) = b := by
    rw [get_size_set_is_free _ _ _ _ (by simp only [HDR]; omega),
      mem2_size_B m base a b (by omega)]
  have hnx : get_next (set_is_free (mem2 m base a b) base 1) base = base + (HDR + a) := by
    rw [get_next_set_is_free _ _ _ _ (by omega),
      mem2_next_A m base a b (by simp only [HDR]; omega)]
  rw [free_tail _ _ _ (by simp only [HDR, NULL]; omega) (by simp only [HDR]; omega)
    (by
      show (base + (HDR + a) + HDR + get_size (set_is_free (mem2 m base a b) base 1)
        ((base + (HDR + a) + HDR + (2 ^ 64 - HDR)) % 2 ^ 64)) % 2 ^ 64 =
        base + (HDR + a) + (HDR + b)
      rw [hB, hszB]; simp only [HDR]; omega)]
  rw [hB, release_block_two fuel
    { mem := set_is_free (mem2 m base a b) base 1, brk := base + (HDR + a) + (HDR + b),
      head := base, tail := base + (HDR + a), free_header := base, base := base,
      limit := limit } _ (by simp only [HDR]; omega) (by simp only [NULL]; omega) hnx]
  have hsz' : get_size (set_next (set_is_free (mem2 m base a b) base 1) base NULL)
      (base + (HDR + a)) = b := by
    rw [get_size_set_next _ _ _ _ (by simp only [HDR]; omega), hszB]
  simp only [hsz']
  rw [sbrk_lower _ _ (HDR + b) (by simp only [HDR]; omega) (by simp only [HDR]; omega)
    (by simp only [HDR]; omega) (by simp only [HDR]; omega)]
  have : base + (HDR + a) + (HDR + b) - (HDR + b) = base + (HDR + a) := by omega
  simp only [this]

theorem add_to_allocated_list_brk (s : State) (h : Nat) :
    (add_to_allocated_list s h).brk = s.brk := by
  unfold add_to_allocated_list
  by_cases h1 : s.head = NULL <;> by_cases h2 : s.tail = NULL <;> simp [h1, h2]

theorem malloc_miss_grow (fuel : Nat) (s : State) (size : Nat) (l : List Nat) (hs : size ≠ 0)
    (hfl : free_list fuel s = some l) (hno : ∀ h ∈ l, get_size s.mem h < size)
    (h0 : 0 < s.brk) (h2 : s.brk + (HDR + size) ≤ s.limit) (h4 : s.limit < 2 ^ 63) :
    ∃ s1, malloc fuel s size = some (s1, s.brk + HDR) ∧ s1.brk = s.brk + (HDR + size) := by
  have hmiss : get_free_block fuel s size = some (s, NULL) :=
    gfb_miss size s fuel s.free_header NULL l hfl hno
  simp only [HDR] at h2
  have ht : (HDR + size) % 2 ^ 64 = HDR + size := by simp only [HDR]; omega
  have hsb := sbrk_up s (HDR + size) (by simp only [HDR]; omega) (by simp only [HDR]; omega)
  rw [← ht] at hsb
  have hm := malloc_fresh fuel _ _ _ size _ hs hmiss hsb
    (by simp only [SBRK_FAIL]; omega) (by simp only [NULL]; omega)
  have hp : (s.brk + HDR) % 2 ^ 64 = s.brk + HDR := by simp only [HDR]; omega
  rw [hp] at hm
  refine ⟨_, hm, ?_⟩
  rw [add_to_allocated_list_brk, ht]

/-! ## The claims -/

/-- C1 (the code breaks it): from the empty allocator the valid sequence
`A = malloc(10); B = malloc(20); free(A); malloc(20)` returns `B` a second time, so two
blocks that are live at the same time have the same payload range.  `free(A)` puts `A` on
the free list with `A.next` still holding the allocated-list link to `B`. -/
theorem C1_live_payloads_overlap :
    (run 2 (start 4096 65536) [.malloc 10, .malloc 20, .free 0, .malloc 20]).map
        (fun t => (t.results, t.live, some_overlap t.live)) =
      some ([4120, 4154, 0, 4154], [(1, 4154, 20), (3, 4154, 20)], true) := by
  decide

/-- C2 (the code breaks it): after `A = malloc(10); B = malloc(20); free(A)` the chain
from `free_header` is `A, B`: the descriptor of the live block `B` (payload 4154,
descriptor 4130) is reachable from `free_header`, and its `is_free` is 0. -/
theorem C2_live_descriptor_on_free_list :
    (run 2 (start 4096 65536) [.malloc 10, .malloc 20, .free 0]).map
        (fun t => (t.live, free_list 2 t.st,
          (free_list 2 t.st).map (fun l => l.map (get_is_free t.st.mem)))) =
      some ([(1, 4154, 20)], some [4096, 4130], some [1, 0]) ∧
    header_of 4154 = 4130 := by
  decide

/-- C3: for all sizes `a > 0` and `b > 0` for which the heap can grow by
`sizeof(header_t) + a` and then by `sizeof(header_t) + b`, starting from the empty
allocator, after `p = malloc(a)`, `malloc(b)`, `free(p)` the next `malloc(a)` returns
exactly `p` and leaves the program break where it was. -/
theorem C3_reuse_after_free (fuel base limit a b : Nat) (m : Mem) (ha : 0 < a) (hb : 0 < b)
    (hbase : 0 < base) (hlim : limit < 2 ^ 63)
    (hgrow : base + (HDR + a) + (HDR + b) ≤ limit) :
    ∃ s1 p s2 q s3 s4,
      malloc (fuel + 1) (init base limit m) a = some (s1, p) ∧
      malloc (fuel + 1) s1 b = some (s2, q) ∧
      free (fuel + 1) s2 p = some s3 ∧
      malloc (fuel + 1) s3 a = some (s4, p) ∧
      p ≠ NULL ∧ q ≠ NULL ∧ s4.brk = s3.brk := by
  obtain ⟨hm1, hm2⟩ := two_mallocs (fuel + 1) base limit a b m ha hb hbase hlim hgrow
  have hf := free_A_first fuel base limit a b m ha hb hbase hlim hgrow
  simp only [HDR] at hgrow
  have hm4 := malloc_exact_head fuel
    { mem := set_is_free (mem2 m base a b) base 1, brk := base + (HDR + a) + (HDR + b),
      head := base, tail := base + (HDR + a), free_header := base, base := base,
      limit := limit } a
    (by omega) (by simp only [NULL]; omega)
    (by
      show get_size (set_is_free (mem2 m base a b) base 1) base = a
      rw [get_size_set_is_free _ _ _ _ (by omega), mem2_size_A m base a b (by omega)])
  have hp : (base + HDR) % 2 ^ 64 = base + HDR := by simp only [HDR]; omega
  simp only [hp] at hm4
  exact ⟨_, _, _, _, _, _, hm1, hm2, hf, hm4, by simp only [HDR, NULL]; omega,
    by simp only [HDR, NULL]; omega, rfl⟩

/-- C3 at `a = 10`, `b = 20`, the instance named in the claim. -/
theorem C3_reuse_after_free_witness :
    ∃ s1 p s2 q s3 s4,
      malloc 1 (init 4096 65536 (fun _ => 0)) 10 = some (s1, p) ∧
      malloc 1 s1 20 = some (s2, q) ∧
      free 1 s2 p = some s3 ∧
      malloc 1 s3 10 = some (s4, p) ∧
      p ≠ NULL ∧ q ≠ NULL ∧ s4.brk = s3.brk :=
  C3_reuse_after_free 0 4096 65536 10 20 (fun _ => 0) (by decide) (by decide) (by decide)
    (by decide) (by decide)

/-- C4 (the code breaks it): after `malloc(10); malloc(20); C = malloc(40); free(A);
free(B)` the block `C` is live with size 40 and its 40 payload bytes are all 0.
`realloc(C, 80)` then returns the non-null pointer 4120 whose first 40 bytes are not those
bytes: offsets 2 and 10 hold 14 and 1, the `size` and `is_free` fields of a descriptor that
`split_block` wrote inside `C`'s payload before the copy. -/
theorem C4_realloc_loses_bytes :
    (run 3 (start 4096 65536)
        [.malloc 10, .malloc 20, .malloc 40, .free 0, .free 1]).map
        (fun t => (t.live, get_size t.st.mem (header_of 4198), bytes t.st.mem 4198 40)) =
      some ([(2, 4198, 40)], 40, List.replicate 40 0) ∧
    (run 3 (start 4096 65536)
        [.malloc 10, .malloc 20, .malloc 40, .free 0, .free 1, .realloc 2 80]).map
        (fun t => (t.results, bytes t.st.mem 4120 40)) =
      some ([4120, 4154, 4198, 0, 0, 4120],
        [0, 0, 14, 0, 0, 0, 0, 0, 0, 0, 1, 0, 0, 0, 0, 0, 0, 0, 0, 0,
         0, 0, 0, 0, 0, 0, 0, 0, 0, 0, 0, 0, 0, 0, 0, 0, 0, 0, 0, 0]) :=
  ⟨rfl, rfl⟩

/-- C5: for a non-null pointer `p` and `0 < n ≤` the size stored in `p`'s descriptor,
`realloc(p, n)` returns `p` and the state it returns is the state it was given: globals,
break, every descriptor and every payload byte. -/
theorem C5_realloc_within_size (fuel : Nat) (s : State) (p n : Nat) (hp : p ≠ NULL)
    (hn : 0 < n) (hle : n ≤ get_size s.mem (header_of p)) :
    realloc fuel s p n = some (s, p) := by
  have h1 : ¬ (p = NULL ∨ n = 0) := by
    intro h; rcases h with h | h
    · exact hp h
    · omega
  have h2 : get_size s.mem ((p + (2 ^ 64 - HDR)) % 2 ^ 64) ≥ n := hle
  simp only [realloc, if_neg h1, if_pos h2]

/-- C5 at the first block (size 10) of a two-block heap, shrunk to 5. -/
theorem C5_realloc_within_size_witness :
    (4120 ≠ NULL ∧ 0 < 5 ∧
      5 ≤ get_size (state2 (fun _ => 0) 4096 65536 10 20).mem (header_of 4120)) ∧
    realloc 0 (state2 (fun _ => 0) 4096 65536 10 20) 4120 5 =
      some (state2 (fun _ => 0) 4096 65536 10 20, 4120) :=
  ⟨⟨by decide, by decide, by decide⟩,
    C5_realloc_within_size 0 (state2 (fun _ => 0) 4096 65536 10 20) 4120 5
      (by decide) (by decide) (by decide)⟩

/-- C6 (the code breaks it): with `A = malloc(10)` and `malloc(20)` live, `realloc(A, 0)`
returns NULL and changes nothing, `A` stays allocated (`is_free = 0`, free list empty);
`free(A)` instead sets `is_free = 1` and puts `A` on the free list. -/
theorem C6_realloc_zero_keeps_block :
    (run 1 (start 4096 65536) [.malloc 10, .malloc 20, .realloc 0 0]).map
        (fun t => (observe t, free_list 1 t.st, get_is_free t.st.mem (header_of 4120))) =
      some (([4120, 4154, 0], [(0, 4120, 10), (1, 4154, 20)], 4174, 4096, 4130, 0),
        some [], 0) ∧
    (run 1 (start 4096 65536) [.malloc 10, .malloc 20, .free 0]).map
        (fun t => (observe t, free_list 2 t.st, get_is_free t.st.mem (header_of 4120))) =
      some (([4120, 4154, 0], [(1, 4154, 20)], 4174, 4096, 4130, 4096),
        some [4096, 4130], 1) :=
  ⟨rfl, rfl⟩

/-- On a finite free list a failing `realloc` is harmless: for a non-null pointer `p` and
`n` greater than the size of `p`'s block, if the free-list chain is finite, none of its
blocks has size `≥ n` and `sbrk` fails, `realloc(p, n)` returns NULL and the state, hence
`p`'s descriptor and payload, is the one before the call. -/
theorem realloc_failure_keeps_state (fuel : Nat) (s : State) (p n : Nat) (l : List Nat)
    (hp : p ≠ NULL) (hn : get_size s.mem (header_of p) < n) (henv : env_ok s)
    (hfl : free_list fuel s = some l) (hno : ∀ h ∈ l, get_size s.mem h < n)
    (hfail : (sbrk s ((HDR + n) % 2 ^ 64)).2 = SBRK_FAIL) :
    realloc fuel s p n = some (s, NULL) := by
  have hn0 : n ≠ 0 := by omega
  have hb : s.brk ≠ SBRK_FAIL := by
    have := henv.2.2.1; have := henv.2.2.2
    simp only [SBRK_FAIL]; omega
  have hm := malloc_miss_fail fuel s n l hn0 hb hfl hno hfail
  have h1 : ¬ (p = NULL ∨ n = 0) := by
    intro h; rcases h with h | h
    · exact hp h
    · exact hn0 h
  have h2 : ¬ get_size s.mem ((p + (2 ^ 64 - HDR)) % 2 ^ 64) ≥ n := by
    have : get_size s.mem ((p + (2 ^ 64 - HDR)) % 2 ^ 64) < n := hn
    omega
  simp only [realloc, if_neg h1, if_neg h2, hm, if_true]

/-- The preceding lemma on a full heap (break at the limit) whose free list holds blocks
of sizes 10 and 20: growing the 20-byte block at 4154 to 21 bytes fails and changes
nothing. -/
theorem realloc_failure_keeps_state_example :
    realloc 2
      { mem := set_is_free (mem2 (fun _ => 0) 4096 10 20) 4096 1, brk := 4174,
        head := 4096, tail := 4130, free_header := 4096, base := 4096, limit := 4174 }
      4154 21 =
    some ({ mem := set_is_free (mem2 (fun _ => 0) 4096 10 20) 4096 1, brk := 4174,
            head := 4096, tail := 4130, free_header := 4096, base := 4096, limit := 4174 },
          NULL) :=
  realloc_failure_keeps_state 2 _ 4154 21 [4096, 4130] (by decide) (by decide)
    ⟨by decide, by decide, by decide, by decide⟩ rfl (by decide) (by decide)

/-- C8: for `size > 0` and a state whose free list is finite with its descriptors inside
the heap, `malloc(size)` returns, and it returns NULL exactly when no free-list block has
size `≥ size` and `sbrk` fails; a NULL result comes with the state unchanged. -/
theorem C8_malloc_null_iff (fuel : Nat) (s : State) (size : Nat) (l : List Nat)
    (hs : 0 < size) (henv : env_ok s) (hfl : free_list_ok fuel s l) :
    ∃ s1 p, malloc fuel s size = some (s1, p) ∧
      (p = NULL ↔ (∀ h ∈ l, get_size s.mem h < size) ∧
        (sbrk s ((HDR + size) % 2 ^ 64)).2 = SBRK_FAIL) ∧
      (p = NULL → s1 = s) := by
  obtain ⟨hbase, hbb, hbl, hlim⟩ := henv
  have hs0 : size ≠ 0 := by omega
  have hb : s.brk ≠ SBRK_FAIL := by simp only [SBRK_FAIL]; omega
  by_cases hno : ∀ h ∈ l, get_size s.mem h < size
  · have hmiss : get_free_block fuel s size = some (s, NULL) :=
      gfb_miss size s fuel s.free_header NULL l hfl.1 hno
    by_cases hfail : (sbrk s ((HDR + size) % 2 ^ 64)).2 = SBRK_FAIL
    · exact ⟨s, NULL, malloc_miss_fail fuel s size l hs0 hb hfl.1 hno hfail,
        ⟨fun _ => ⟨hno, hfail⟩, fun _ => rfl⟩, fun _ => rfl⟩
    · have hres := sbrk_ok_result s _ hfail
      have hm := malloc_fresh fuel s s (sbrk s ((HDR + size) % 2 ^ 64)).1 size
        (sbrk s ((HDR + size) % 2 ^ 64)).2 hs0 hmiss rfl hfail
        (by rw [hres]; simp only [NULL]; omega)
      have hp : ((sbrk s ((HDR + size) % 2 ^ 64)).2 + HDR) % 2 ^ 64 ≠ NULL := by
        rw [hres]; simp only [HDR, NULL]; omega
      exact ⟨_, _, hm, ⟨fun h => absurd h hp, fun h => absurd h.2 hfail⟩, fun h => absurd h hp⟩
  · have hex : ∃ h ∈ l, size ≤ get_size s.mem h := by
      by_contra hcon
      apply hno
      intro h hh
      by_contra h3
      exact hcon ⟨h, hh, by omega⟩
    obtain ⟨s1, h, hh, hr⟩ := gfb_hit size s fuel s.free_header NULL l hfl.1 hex
    have hne : h ≠ NULL := chain_ne_null s.mem fuel s.free_header l hfl.1 h hh
    have hin := hfl.2 h hh
    have hp : (h + HDR) % 2 ^ 64 ≠ NULL := by
      simp only [HDR, NULL] at hin ⊢; omega
    have hm : malloc fuel s size = some
        ({ s1 with mem := set_is_free s1.mem h 0 }, (h + HDR) % 2 ^ 64) := by
      have hr' : get_free_block fuel s size = some (s1, h) := hr
      simp only [malloc, if_neg hs0, hr', hne, ne_eq, not_false_eq_true, if_true]
    exact ⟨_, _, hm, ⟨fun h1 => absurd h1 hp, fun h1 => absurd h1.1 hno⟩, fun h1 => absurd h1 hp⟩

/-- C8 on a full heap whose free list holds blocks of sizes 10 and 20, asked for 21. -/
theorem C8_malloc_null_iff_witness :
    ∃ s1 p,
      malloc 2
        { mem := set_is_free (mem2 (fun _ => 0) 4096 10 20) 4096 1, brk := 4174,
          head := 4096, tail := 4130, free_header := 4096, base := 4096, limit := 4174 }
        21 = some (s1, p) ∧
      (p = NULL ↔
        (∀ h ∈ [4096, 4130],
          get_size (set_is_free (mem2 (fun _ => 0) 4096 10 20) 4096 1) h < 21) ∧
        (sbrk
          { mem := set_is_free (mem2 (fun _ => 0) 4096 10 20) 4096 1, brk := 4174,
            head := 4096, tail := 4130, free_header := 4096, base := 4096, limit := 4174 }
          ((HDR + 21) % 2 ^ 64)).2 = SBRK_FAIL) ∧
      (p = NULL → s1 =
        { mem := set_is_free (mem2 (fun _ => 0) 4096 10 20) 4096 1, brk := 4174,
          head := 4096, tail := 4130, free_header := 4096, base := 4096, limit := 4174 }) :=
  C8_malloc_null_iff 2 _ 21 [4096, 4130] (by decide)
    ⟨by decide, by decide, by decide, by decide⟩ ⟨rfl, by decide⟩

/-- C9: for every `size > 0` for which the `sbrk` call of `malloc` succeeds, starting from
the empty allocator, `malloc(size)` returns a non-null pointer and `free` of it puts the
break back at its initial value with `head`, `tail` and `free_header` all null. -/
theorem C9_free_malloc_restores (base limit size fuel : Nat) (m : Mem) (hb : 0 < base)
    (hl : limit < 2 ^ 63) (hs : 0 < size) (hs2 : size < 2 ^ 64)
    (hg : (sbrk (init base limit m) ((HDR + size) % 2 ^ 64)).2 ≠ SBRK_FAIL) :
    ∃ s1 p, malloc fuel (init base limit m) size = some (s1, p) ∧ p ≠ NULL ∧
      ∃ s2, free fuel s1 p = some s2 ∧
        s2.brk = (init base limit m).brk ∧ s2.head = NULL ∧ s2.tail = NULL ∧
        s2.free_header = NULL ∧ s2.base = base ∧ s2.limit = limit := by
  have hs0 : size ≠ 0 := by omega
  obtain ⟨t, ht⟩ : ∃ t, t = (HDR + size) % 2 ^ 64 := ⟨_, rfl⟩
  have hup : t < 2 ^ 63 ∧ base + t ≤ limit := by
    rcases sbrk_ok_cases _ _ hg with h | h
    · rw [← ht] at h; exact h
    · rw [← ht] at h
      have h3 : base + (2 ^ 64 - t) ≤ base := h.2
      omega
  have hm := malloc_init fuel base limit size t m hs0 hb hl ht hup.1 hup.2
  have hp : base + HDR ≠ NULL := by simp only [HDR, NULL]; omega
  have hh : (base + HDR + (2 ^ 64 - HDR)) % 2 ^ 64 = base := by
    simp only [HDR]; omega
  have hsz : get_size (fresh_header m base size) base = size := get_size_fresh m base size hs2
  refine ⟨_, _, hm, hp, ?_⟩
  rw [free_tail _ _ _ hp hup.2]
  · rw [hh, release_block_single _ _ _ rfl]
    simp only [hsz]
    rw [sbrk_lower _ _ t (by omega) (by simp only [HDR] at ht ⊢; omega)
      (by show base + t ≤ base + t; omega) hup.2]
    exact ⟨_, rfl, by show base + t - t = base; omega, rfl, rfl, rfl, rfl, rfl⟩
  · show (base + HDR + get_size (fresh_header m base size)
      ((base + HDR + (2 ^ 64 - HDR)) % 2 ^ 64)) % 2 ^ 64 = base + t
    rw [hh, hsz]
    simp only [HDR] at ht ⊢
    omega

/-- C9 at `size = 10`. -/
theorem C9_free_malloc_restores_witness :
    ∃ s1 p, malloc 0 (init 4096 65536 (fun _ => 0)) 10 = some (s1, p) ∧ p ≠ NULL ∧
      ∃ s2, free 0 s1 p = some s2 ∧
        s2.brk = (init 4096 65536 (fun _ => 0)).brk ∧ s2.head = NULL ∧ s2.tail = NULL ∧
        s2.free_header = NULL ∧ s2.base = 4096 ∧ s2.limit = 65536 :=
  C9_free_malloc_restores 4096 65536 10 0 (fun _ => 0) (by decide) (by decide) (by decide)
    (by decide) (by decide)

/-- C10 as stated fails at `a = 10`, `b = 20`: releasing A then B leaves one free-list
entry of size 10, releasing B then A leaves none, in neither order an entry of size
`10 + 20 + sizeof(header_t) = 54`; and the following `malloc(54)` raises the break (from
4130 to 4208, resp. from 4096 to 4174). -/
theorem C10_no_coalescing_at_tail :
    (run 2 (start 4096 65536) [.malloc 10, .malloc 20, .free 0, .free 1]).map
        (fun t => (t.results, free_sizes 2 t.st, t.st.brk)) =
      some ([4120, 4154, 0, 0], some [10], 4130) ∧
    (run 2 (start 4096 65536) [.malloc 10, .malloc 20, .free 1, .free 0]).map
        (fun t => (t.results, free_sizes 2 t.st, t.st.brk)) =
      some ([4120, 4154, 0, 0], some [], 4096) ∧
    10 + 20 + HDR = 54 ∧
    (run 2 (start 4096 65536) [.malloc 10, .malloc 20, .free 0, .free 1, .malloc 54]).map
        (fun t => (t.results, t.st.brk)) =
      some ([4120, 4154, 0, 0, 4154], 4208) ∧
    (run 2 (start 4096 65536) [.malloc 10, .malloc 20, .free 1, .free 0, .malloc 54]).map
        (fun t => (t.results, t.st.brk)) =
      some ([4120, 4154, 0, 0, 4120], 4174) := by
  decide

/-- C10 as amended: for all `a > 0`, `b > 0` (heap growth succeeding), starting from the
empty allocator, after `A = malloc(a)` and `B = malloc(b)` the block `B` is the trailing
block of the heap, and releasing it lowers the break instead of coalescing.  Releasing A
then B leaves a single free-list entry of size `a` and the break at the end of `A`;
releasing B then A leaves the free list empty and the break at its initial value.  In both
orders a following `malloc(a + b + sizeof(header_t))` raises the break by
`sizeof(header_t) + (a + b + sizeof(header_t))`. -/
theorem C10_tail_release (fuel base limit a b : Nat) (m : Mem) (ha : 0 < a) (hb : 0 < b)
    (hbase : 0 < base) (hlim : limit < 2 ^ 63)
    (hgrow : base + (HDR + a) + (HDR + (a + b + HDR)) ≤ limit) :
    ∃ s1 A s2 B,
      malloc (fuel + 1) (init base limit m) a = some (s1, A) ∧
      malloc (fuel + 1) s1 b = some (s2, B) ∧
      (∃ s3 s4 s5 r,
        free (fuel + 1) s2 A = some s3 ∧ free (fuel + 1) s3 B = some s4 ∧
        free_sizes (fuel + 1) s4 = some [a] ∧ s4.brk = base + (HDR + a) ∧
        malloc (fuel + 1) s4 (a + b + HDR) = some (s5, r) ∧ r ≠ NULL ∧
        s5.brk = s4.brk + (HDR + (a + b + HDR))) ∧
      (∃ s3 s4 s5 r,
        free (fuel + 1) s2 B = some s3 ∧ free (fuel + 1) s3 A = some s4 ∧
        free_sizes (fuel + 1) s4 = some [] ∧ s4.brk = base ∧
        malloc (fuel + 1) s4 (a + b + HDR) = some (s5, r) ∧ r ≠ NULL ∧
        s5.brk = s4.brk + (HDR + (a + b + HDR))) := by
  simp only [HDR] at hgrow
  have hg2 : base + (HDR + a) + (HDR + b) ≤ limit := by simp only [HDR]; omega
  obtain ⟨hm1, hm2⟩ := two_mallocs (fuel + 1) base limit a b m ha hb hbase hlim hg2
  refine ⟨_, _, _, _, hm1, hm2, ?_, ?_⟩
  · have hf1 := free_A_first fuel base limit a b m ha hb hbase hlim hg2
    have hf2 := free_B_second fuel base limit a b m ha hb hbase hlim hg2
    have hnx : get_next (set_next (set_is_free (mem2 m base a b) base 1) base NULL) base = NULL :=
      get_next_set_next _ _ _ (by simp only [NULL]; omega)
    have hsz : get_size (set_next (set_is_free (mem2 m base a b) base 1) base NULL) base = a := by
      rw [get_size_set_next _ _ _ _ (by omega), get_size_set_is_free _ _ _ _ (by omega),
        mem2_size_A m base a b (by omega)]
    have hA : base ≠ NULL := by simp only [NULL]; omega
    have hfl : free_list (fuel + 1)
        { mem := set_next (set_is_free (mem2 m base a b) base 1) base NULL,
          brk := base + (HDR + a), head := base, tail := base, free_header := base,
          base := base, limit := limit } = some [base] := by
      simp only [free_list, chain, if_neg hA, hnx, chain_null]
    obtain ⟨s5, hm5, hbrk⟩ := malloc_miss_grow (fuel + 1) _ (a + b + HDR) [base]
      (by omega) hfl
      (by
        intro h hh
        rw [List.mem_singleton.mp hh]
        show get_size (set_next (set_is_free (mem2 m base a b) base 1) base NULL) base < _
        rw [hsz]; simp only [HDR]; omega)
      (by show 0 < base + (HDR + a); omega)
      (by show base + (HDR + a) + (HDR + (a + b + HDR)) ≤ limit; simp only [HDR]; omega)
      hlim
    refine ⟨_, _, s5, _, hf1, hf2, ?_, rfl, hm5, ?_, hbrk⟩
    · simp only [free_sizes, hfl, Option.map_some', List.map_cons, List.map_nil, hsz]
    · show base + (HDR + a) + HDR ≠ NULL
      simp only [NULL]; omega
  · have hf1 := free_B_first fuel base limit a b m ha hb hbase hlim hg2
    have hf2 := free_A_second fuel base limit a b m ha hbase hlim (by simp only [HDR]; omega)
    have hfl : free_list (fuel + 1)
        { mem := set_next (mem2 m base a b) base NULL, brk := base, head := NULL,
          tail := NULL, free_header := NULL, base := base, limit := limit } = some [] := by
      simp only [free_list, chain_null]
    obtain ⟨s5, hm5, hbrk⟩ := malloc_miss_grow (fuel + 1) _ (a + b + HDR) []
      (by omega) hfl (by intro h hh; simp at hh)
      (by show 0 < base; omega)
      (by show base + (HDR + (a + b + HDR)) ≤ limit; simp only [HDR]; omega)
      hlim
    refine ⟨_, _, s5, _, hf1, hf2, ?_, rfl, hm5, ?_, hbrk⟩
    · simp only [free_sizes, hfl, Option.map_some', List.map_nil]
    · show base + HDR ≠ NULL
      simp only [NULL]; omega

/-- C10 as amended, at `a = 10`, `b = 20`. -/
theorem C10_tail_release_witness :
    ∃ s1 A s2 B,
      malloc 1 (init 4096 65536 (fun _ => 0)) 10 = some (s1, A) ∧
      malloc 1 s1 20 = some (s2, B) ∧
      (∃ s3 s4 s5 r,
        free 1 s2 A = some s3 ∧ free 1 s3 B = some s4 ∧
        free_sizes 1 s4 = some [10] ∧ s4.brk = 4096 + (HDR + 10) ∧
        malloc 1 s4 (10 + 20 + HDR) = some (s5, r) ∧ r ≠ NULL ∧
        s5.brk = s4.brk + (HDR + (10 + 20 + HDR))) ∧
      (∃ s3 s4 s5 r,
        free 1 s2 B = some s3 ∧ free 1 s3 A = some s4 ∧
        free_sizes 1 s4 = some [] ∧ s4.brk = 4096 ∧
        malloc 1 s4 (10 + 20 + HDR) = some (s5, r) ∧ r ≠ NULL ∧
        s5.brk = s4.brk + (HDR + (10 + 20 + HDR))) :=
  C10_tail_release 0 4096 65536 10 20 (fun _ => 0) (by decide) (by decide) (by decide)
    (by decide) (by decide)

/-! ## Lemmas: chains that never reach the null pointer -/

theorem chain_cycle (m : Mem) (C : List Nat)
    (hC : ∀ x ∈ C, x ≠ NULL ∧ get_next m x ∈ C) :
    ∀ (fuel x : Nat), x ∈ C → chain m fuel x = none := by
  intro fuel
  induction fuel with
  | zero =>
    intro x hx
    simp only [chain, if_neg (hC x hx).1]
  | succ fuel ih =>
    intro x hx
    simp only [chain, if_neg (hC x hx).1, ih _ (hC x hx).2]

theorem get_free_block_loop_cycle (s : State) (size : Nat) (C : List Nat)
    (hC : ∀ x ∈ C, x ≠ NULL ∧ get_next s.mem x ∈ C ∧ get_size s.mem x < size) :
    ∀ (fuel x prev : Nat), x ∈ C → get_free_block_loop size fuel s x prev = none := by
  intro fuel
  induction fuel with
  | zero =>
    intro x prev hx
    simp only [get_free_block_loop, if_neg (hC x hx).1]
  | succ fuel ih =>
    intro x prev hx
    have h1 : ¬ get_size s.mem x ≥ size := by
      have := (hC x hx).2.2
      omega
    simp only [get_free_block_loop, if_neg (hC x hx).1, if_neg h1]
    exact ih _ _ (hC x hx).2.1

theorem malloc_cycle (s : State) (size : Nat) (C : List Nat) (hs : size ≠ 0)
    (hfh : s.free_header ∈ C)
    (hC : ∀ x ∈ C, x ≠ NULL ∧ get_next s.mem x ∈ C ∧ get_size s.mem x < size) :
    ∀ fuel : Nat, malloc fuel s size = none := by
  intro fuel
  have h := get_free_block_loop_cycle s size C hC fuel s.free_header NULL hfh
  simp only [malloc, if_neg hs, get_free_block, h]

/-! ## The claims, continued -/

/-- C11: when `num * size` is non-zero and fits in `size_t` and `calloc(num, size)`
returns a non-null pointer `p`, every byte of `[p, p + num * size)` is zero in the state
it returns. -/
theorem C11_calloc_zeroes (fuel : Nat) (s s1 : State) (num size p : Nat)
    (hprod : num * size < 2 ^ 64) (hnz : num * size ≠ 0)
    (h : calloc fuel s num size = some (s1, p)) (hp : p ≠ NULL) :
    ∀ i, i < num * size → s1.mem (p + i) = 0 := by
  intro i hi
  have ht : (num * size) % 2 ^ 64 = num * size := Nat.mod_eq_of_lt hprod
  simp only [calloc, ht, if_neg hnz] at h
  cases hm : malloc fuel s (num * size) with
  | none => simp [hm] at h
  | some r =>
    obtain ⟨s2, block⟩ := r
    simp only [hm] at h
    by_cases hb : block = NULL
    · simp only [if_pos hb, Option.some.injEq, Prod.mk.injEq] at h
      exact absurd h.2.symm hp
    · simp only [if_neg hb, Option.some.injEq, Prod.mk.injEq] at h
      obtain ⟨h1, h2⟩ := h
      subst h1; subst h2
      have hin : block ≤ block + i ∧ block + i < block + num * size := by omega
      simp only [memset, hin, and_self, if_true, Nat.zero_mod]

/-- C11 at `calloc(2, 5)` on the empty allocator over memory filled with the byte 255. -/
theorem C11_calloc_zeroes_witness :
    (2 * 5 < 2 ^ 64 ∧ 2 * 5 ≠ 0 ∧ 4120 ≠ NULL) ∧
    ∃ s1, calloc 0 (init 4096 65536 (fun _ => 255)) 2 5 = some (s1, 4120) ∧
      ∀ i, i < 2 * 5 → s1.mem (4120 + i) = 0 :=
  ⟨⟨by decide, by decide, by decide⟩, _, rfl,
    C11_calloc_zeroes 0 (init 4096 65536 (fun _ => 255)) _ 2 5 4120 (by decide) (by decide)
      rfl (by decide)⟩

/-- C12 (the code breaks it): `calloc(2^61 + 1, 8)` computes `num * size` modulo `2^64`,
which is 8; it returns the non-null pointer 4120 to a block whose payload size is 8, far
below the product `2^64 + 8`. -/
theorem C12_calloc_product_wraps :
    (run 1 (start 4096 65536) [.calloc (2 ^ 61 + 1) 8]).map
        (fun t => (t.results, get_size t.st.mem (header_of 4120), t.st.brk)) =
      some ([4120], 8, 4128) ∧
    8 < (2 ^ 61 + 1) * 8 := by
  decide

/-- C13 (the code breaks it): under LP64 `sizeof(header_t)` is 24, not a multiple of 16,
and from the 16-byte-aligned break 4096 `malloc(10)` and `malloc(20)` return 4120 and
4154, whose remainders modulo 16 are 8 and 10. -/
theorem C13_payload_not_aligned :
    HDR % 16 = 8 ∧ 4096 % 16 = 0 ∧
    (run 1 (start 4096 65536) [.malloc 10, .malloc 20]).map
        (fun t => (t.results, t.results.map (fun p => p % 16))) =
      some ([4120, 4154], [8, 10]) := by
  decide

/-- C14: in every state `malloc(0)`, `calloc(n, 0)` and `calloc(0, s)` return NULL and
the state they return is the state they were given. -/
theorem C14_zero_requests (fuel : Nat) (s : State) (n sz : Nat) :
    malloc fuel s 0 = some (s, NULL) ∧
    calloc fuel s n 0 = some (s, NULL) ∧
    calloc fuel s 0 sz = some (s, NULL) := by
  refine ⟨?_, ?_, ?_⟩
  · simp only [malloc, if_true]
  · simp only [calloc, Nat.mul_zero, Nat.zero_mod, if_true]
  · simp only [calloc, Nat.zero_mul, Nat.zero_mod, if_true]

/-- C15 (the code breaks it): after `malloc(10); malloc(20); malloc(30); free(A)` the
free-list chain is `4096, 4130, 4174`, finite and without repetition, with sizes 10, 20,
30.  `get_free_block(5)` returns the first fitting node 4096, but the chain it leaves is
`4125, 4130`: the remainder 4125 took the place of 4096, and the node 4174 is gone.  The
remainder descriptor `[4125, 4149)` does not fit in the 5 bytes left over and overwrote
the `next` field of the descriptor at 4130. -/
theorem C15_search_loses_a_node :
    (run 2 (start 4096 65536) [.malloc 10, .malloc 20, .malloc 30, .free 0]).map
        (fun t => t.results) = some [4120, 4154, 4198, 0] ∧
    free_list 3 (final_state 2 4096 65536 [.malloc 10, .malloc 20, .malloc 30, .free 0]) =
      some [4096, 4130, 4174] ∧
    free_sizes 3 (final_state 2 4096 65536 [.malloc 10, .malloc 20, .malloc 30, .free 0]) =
      some [10, 20, 30] ∧
    (get_free_block 3
        (final_state 2 4096 65536 [.malloc 10, .malloc 20, .malloc 30, .free 0]) 5).map
        (fun r => (r.2, free_list 3 r.1)) =
      some (4096, some [4125, 4130]) := by
  decide

/-- C16 (the code breaks it): after `malloc(10); malloc(20); free(A)` the block at 4096
is free with payload size `old = 10`.  Serving the request `size = 5` from it splits it:
the block keeps size 5 and the remainder at `4096 + 24 + 5 = 4125` gets `is_free = 1` and
size `10 - 24 - 5` modulo `2^64`, that is `2^64 - 19`; so `size + 24 + remainder.size` is
not `old`, and the remainder's descriptor ends at 4149, beyond the block's end 4130. -/
theorem C16_split_remainder_wraps :
    get_size (final_state 2 4096 65536 [.malloc 10, .malloc 20, .free 0]).mem 4096 = 10 ∧
    get_is_free (final_state 2 4096 65536 [.malloc 10, .malloc 20, .free 0]).mem 4096 = 1 ∧
    (get_free_block 2 (final_state 2 4096 65536 [.malloc 10, .malloc 20, .free 0]) 5).map
        (fun r => (r.2, get_size r.1.mem r.2, r.1.free_header,
          get_size r.1.mem 4125, get_is_free r.1.mem 4125)) =
      some (4096, 5, 4125, 2 ^ 64 - 19, 1) ∧
    5 + HDR + (2 ^ 64 - 19) ≠ 10 ∧
    (extent (final_state 2 4096 65536 [.malloc 10, .malloc 20, .free 0]).mem 4096).2 < 4125 + HDR := by
  decide

/-- C17 (the code breaks it): after `malloc(2^32 + 10); malloc(20); free(A)` the block at
4096 is free with size `c = 2^32 + 10`.  `get_free_block(10)` selects it, and although
`c ≠ 10` it does not split: `abs` receives `c - 10 = 2^32` converted to `int`, which is 0.
The block is handed out with its size still `2^32 + 10` (a call of `split_block` would
have left size 10), and `free_header` moves on to the block's old successor 4294971426
instead of a remainder at `4096 + 24 + 10`. -/
theorem C17_no_split_at_two_pow_32 :
    get_size (final_state 2 4096 (2 ^ 33) [.malloc (2 ^ 32 + 10), .malloc 20, .free 0]).mem
      4096 = 2 ^ 32 + 10 ∧
    c_abs (to_int ((2 ^ 32 + 10 + (2 ^ 64 - 10 % 2 ^ 64)) % 2 ^ 64)) = 0 ∧
    (get_free_block 2
        (final_state 2 4096 (2 ^ 33) [.malloc (2 ^ 32 + 10), .malloc 20, .free 0]) 10).map
        (fun r => (r.2, get_size r.1.mem r.2, r.1.free_header)) =
      some (4096, 2 ^ 32 + 10, 4294971426) ∧
    get_size (split_block
        (final_state 2 4096 (2 ^ 33) [.malloc (2 ^ 32 + 10), .malloc 20, .free 0])
        4096 10).mem 4096 = 10 := by
  decide

/-- C18 (the code breaks it): `sizeof(header_t) + size` is computed modulo `2^64` and
handed to `sbrk` as a signed increment.  On the empty allocator `malloc(2^64 - 24)` calls
`sbrk(0)`: it returns the non-null pointer 4120 and the break stays at 4096.  After
`malloc(100)` (break 4220, free list empty) the call `malloc(2^64 - 74)` makes `sbrk`
succeed with increment `-50`: it returns the non-null pointer 4244 and the break drops
to 4170. -/
theorem C18_malloc_total_size_wraps :
    (run 1 (start 4096 65536) [.malloc (2 ^ 64 - 24)]).map
        (fun t => (t.results, t.st.brk)) = some ([4120], 4096) ∧
    (run 1 (start 4096 65536) [.malloc 100]).map
        (fun t => (t.results, t.st.brk, free_list 1 t.st)) = some ([4120], 4220, some []) ∧
    (sbrk (final_state 1 4096 65536 [.malloc 100]) ((HDR + (2 ^ 64 - 74)) % 2 ^ 64)).2 = 4220 ∧
    4220 ≠ SBRK_FAIL ∧
    (run 1 (start 4096 65536) [.malloc 100, .malloc (2 ^ 64 - 74)]).map
        (fun t => (t.results, t.st.brk)) = some ([4120, 4244], 4170) := by
  decide

/-- C19 (the code breaks it): in `three_blocks` the free list `4096, 4200` is finite,
without repetition, all `is_free`, with extents `[4096, 4130)` and `[4200, 4254)`; the
block 4130 is free, not on the list, with a null `next` and extent `[4130, 4174)`.
`coalesce_blocks(4130)` merges it into 4096 (size 54) and then links `4200.next = 4096`
while `4096.next` is still 4200: the chain from `free_header` is the cycle
`4096, 4200, 4096, ...` and never reaches NULL. -/
theorem C19_coalesce_makes_cycle :
    free_list 2 three_blocks = some [4096, 4200] ∧
    [4096, 4200, 4130].map (fun h => (get_is_free three_blocks.mem h, extent three_blocks.mem h)) =
      [(1, 4096, 4130), (1, 4200, 4254), (1, 4130, 4174)] ∧
    get_next three_blocks.mem 4130 = NULL ∧
    ∃ s, coalesce_blocks 2 three_blocks 4130 = some s ∧
      s.free_header = 4096 ∧ get_size s.mem 4096 = 54 ∧
      get_next s.mem 4096 = 4200 ∧ get_next s.mem 4200 = 4096 ∧
      ∀ fuel, free_list fuel s = none := by
  refine ⟨by decide, by decide, by decide, _, rfl, by decide, by decide, by decide, by decide, ?_⟩
  intro fuel
  exact chain_cycle _ [4096, 4200] (by decide) fuel _ (by decide)

/-- C20 (the code breaks it): the valid sequence `T = malloc(10); H = malloc(20);
X = malloc(30); L = malloc(40); free(X); free(T)` leaves `free_header = 4174` with
`4174.next = 4228`, `4228.next = 4096`, `4096.next = 4130`, `4130.next = 4174`: a cycle
through two live blocks.  The chain from `free_header` is longer than every fuel, and
`malloc(1000)`, which no block of the cycle can serve, does not return for any fuel. -/
theorem C20_free_list_cycle :
    (run 2 (start 4096 65536)
        [.malloc 10, .malloc 20, .malloc 30, .malloc 40, .free 2, .free 0]).map
        (fun t => (t.results, t.live, t.st.free_header,
          [4174, 4228, 4096, 4130].map (get_next t.st.mem))) =
      some ([4120, 4154, 4198, 4252, 0, 0], [(1, 4154, 20), (3, 4252, 40)], 4174,
        [4228, 4096, 4130, 4174]) ∧
    (∀ fuel, free_list fuel (final_state 2 4096 65536
        [.malloc 10, .malloc 20, .malloc 30, .malloc 40, .free 2, .free 0]) = none) ∧
    (∀ fuel, malloc fuel (final_state 2 4096 65536
        [.malloc 10, .malloc 20, .malloc 30, .malloc 40, .free 2, .free 0]) 1000 = none) := by
  refine ⟨by decide, ?_, ?_⟩
  · intro fuel
    exact chain_cycle _ [4174, 4228, 4096, 4130] (by decide) fuel _ (by decide)
  · exact malloc_cycle _ 1000 [4174, 4228, 4096, 4130] (by decide) (by decide) (by decide)

/-- When the search of `malloc` runs out of fuel, so does a growing `realloc`. -/
theorem realloc_of_malloc_none (fuel : Nat) (s : State) (p n : Nat) (hp : p ≠ NULL)
    (hn : get_size s.mem (header_of p) < n) (hm : malloc fuel s n = none) :
    realloc fuel s p n = none := by
  have h1 : ¬ (p = NULL ∨ n = 0) := by
    intro h; rcases h with h | h
    · exact hp h
    · omega
  have h2 : ¬ get_size s.mem ((p + (2 ^ 64 - HDR)) % 2 ^ 64) ≥ n := by
    have : get_size s.mem ((p + (2 ^ 64 - HDR)) % 2 ^ 64) < n := hn
    omega
  simp only [realloc, if_neg h1, if_neg h2, hm]

/-- C7 (the code breaks it): the valid sequence `T = malloc(10); H = malloc(20);
X = malloc(30); L = malloc(40); free(X); free(T)` on a heap whose limit is reached
(break = limit = 4292) leaves `H = 4154` live with size 20 and the free-list chain
`4174, 4228, 4096, 4130, 4174, ...`, a cycle whose blocks have sizes 30, 40, 10, 20.
For `realloc(H, 1000)` no free-list block has size `≥ 1000` and `sbrk(1024)` fails, yet
`realloc` does not return NULL: it stays in the search loop of `get_free_block` for every
fuel. -/
theorem C7_realloc_never_returns_on_cycle :
    (run 2 (start 4096 4292)
        [.malloc 10, .malloc 20, .malloc 30, .malloc 40, .free 2, .free 0]).map
        (fun t => (t.results, t.live, t.st.brk, t.st.limit, t.st.free_header,
          [4174, 4228, 4096, 4130].map (fun h => (get_next t.st.mem h, get_size t.st.mem h)))) =
      some ([4120, 4154, 4198, 4252, 0, 0], [(1, 4154, 20), (3, 4252, 40)], 4292, 4292, 4174,
        [(4228, 30), (4096, 40), (4130, 10), (4174, 20)]) ∧
    get_size (final_state 2 4096 4292
        [.malloc 10, .malloc 20, .malloc 30, .malloc 40, .free 2, .free 0]).mem
      (header_of 4154) = 20 ∧
    (sbrk (final_state 2 4096 4292
        [.malloc 10, .malloc 20, .malloc 30, .malloc 40, .free 2, .free 0])
      ((HDR + 1000) % 2 ^ 64)).2 = SBRK_FAIL ∧
    (∀ fuel, realloc fuel (final_state 2 4096 4292
        [.malloc 10, .malloc 20, .malloc 30, .malloc 40, .free 2, .free 0]) 4154 1000 = none) := by
  refine ⟨rfl, by decide, by decide, ?_⟩
  intro fuel
  exact realloc_of_malloc_none fuel _ 4154 1000 (by decide) (by decide)
    (malloc_cycle _ 1000 [4174, 4228, 4096, 4130] (by decide) (by decide) (by decide) fuel)

end Alloc
